import Mathlib

/-!
Verification of the gold-forecast pipeline (data fetching/alignment,
feature preprocessing, model lifecycle, and insight synthesis) against
its natural-language specification.

The embedding follows the Python source:
* numbers are rationals (`ℚ`); where IEEE-754 special values matter
  (the pipeline's float columns can hold NaN/inf), values live in `FP`,
  a rational-plus-specials model whose comparison, subtraction,
  multiplication and division mirror numpy float64 semantics for the
  operations the source performs (every comparison with NaN is false,
  finite/0 is a signed infinity or NaN, NaN propagates);
* dataframes are lists of records, one record type per table shape;
* fallible operations return `Option`/`Except`.
-/

namespace GoldForecast

/-- Model of a numpy float64 value as used by the pipeline: a rational,
a signed infinity, or NaN.  (Finite-precision rounding is not modelled;
none of the verified properties depend on it.) -/
inductive FP where
  | fin : ℚ → FP
  | pinf : FP
  | ninf : FP
  | nan : FP
deriving DecidableEq

/-- IEEE-style subtraction on `FP` (numpy float64 `-`). -/
def FP.sub : FP → FP → FP
  | .fin a, .fin b => .fin (a - b)
  | .fin _, .pinf => .ninf
  | .fin _, .ninf => .pinf
  | .pinf, .fin _ => .pinf
  | .ninf, .fin _ => .ninf
  | .pinf, .ninf => .pinf
  | .ninf, .pinf => .ninf
  | _, _ => .nan

/-- IEEE-style multiplication on `FP` (numpy float64 `*`). -/
def FP.mul : FP → FP → FP
  | .fin a, .fin b => .fin (a * b)
  | .fin a, .pinf => if 0 < a then .pinf else if a < 0 then .ninf else .nan
  | .fin a, .ninf => if 0 < a then .ninf else if a < 0 then .pinf else .nan
  | .pinf, .fin b => if 0 < b then .pinf else if b < 0 then .ninf else .nan
  | .ninf, .fin b => if 0 < b then .ninf else if b < 0 then .pinf else .nan
  | .pinf, .pinf => .pinf
  | .pinf, .ninf => .ninf
  | .ninf, .pinf => .ninf
  | .ninf, .ninf => .pinf
  | _, _ => .nan

/-- IEEE-style division on `FP` (numpy float64 `/`): a finite value
divided by zero is a signed infinity (NaN when the numerator is also
zero) — numpy emits a RuntimeWarning but no exception. -/
def FP.div : FP → FP → FP
  | .fin a, .fin b =>
      if b ≠ 0 then .fin (a / b)
      else if 0 < a then .pinf
      else if a < 0 then .ninf
      else .nan
  | .fin _, .pinf => .fin 0
  | .fin _, .ninf => .fin 0
  | .pinf, .fin b => if b < 0 then .ninf else .pinf
  | .ninf, .fin b => if b < 0 then .pinf else .ninf
  | _, _ => .nan

/-- IEEE-style strict `<` on `FP`: any comparison involving NaN is
false. -/
def FP.lt : FP → FP → Bool
  | .fin a, .fin b => decide (a < b)
  | .fin _, .pinf => true
  | .ninf, .fin _ => true
  | .ninf, .pinf => true
  | _, _ => false

/-- IEEE-style strict `>` on `FP` (Python `a > b` is `b < a`). -/
def FP.gt (a b : FP) : Bool := FP.lt b a

/-- The last row of the preprocessed historical table as consumed by
`generate_insights` (`historical_data.iloc[-1]`): close price `y` and
the three indicator columns. -/
structure HistRow where
  ds : ℤ
  y : FP
  sma_20 : FP
  sma_50 : FP
  rsi_14 : FP
deriving DecidableEq

/-- A row of the Prophet forecast dataframe as consumed by
`generate_insights` (`forecast.iloc[-1]`). -/
structure FcRow where
  ds : ℤ
  yhat : FP
  yhat_lower : FP
  yhat_upper : FP
deriving DecidableEq

/-- The insight dictionary returned by `generate_insights`
(src/model.py): numeric fields plus the four categorical labels. -/
structure InsightRecord where
  current_price : FP
  predicted_price : FP
  lower_bound : FP
  upper_bound : FP
  days_ahead : ℤ
  forecast_trend : String
  pct_change : FP
  sma_20 : FP
  sma_50 : FP
  rsi_14 : FP
  rsi_signal : String
  tech_trend : String
  action : String
deriving DecidableEq

/-- `pct_change = (predicted_price - current_price) / current_price * 100`
from `generate_insights` (src/model.py), with float semantics: there is
no division-by-zero guard in the source. -/
def pctChangeOf (future_pred : FcRow) (latest_hist : HistRow) : FP :=
  FP.mul (FP.div (FP.sub future_pred.yhat latest_hist.y) latest_hist.y) (FP.fin 100)

/-- The `forecast_trend` `if`/`elif`/`else` chain of `generate_insights`
(src/model.py), verbatim. -/
def forecastTrendOf (pct_change : FP) : String :=
  if FP.gt pct_change (FP.fin (3/2)) then "Strong Bullish 📈"
  else if FP.gt pct_change (FP.fin 0) then "Slightly Bullish ↗️"
  else if FP.lt pct_change (FP.fin (-(3/2))) then "Strong Bearish 📉"
  else "Slightly Bearish ↘️"

/-- The `rsi_signal` `if`/`elif`/`else` chain of `generate_insights`
(src/model.py), verbatim. -/
def rsiSignalOf (rsi_14 : FP) : String :=
  if FP.lt rsi_14 (FP.fin 30) then "OVERSOLD (Consider Buying)"
  else if FP.gt rsi_14 (FP.fin 70) then "OVERBOUGHT (Consider Selling)"
  else "NEUTRAL"

/-- The `tech_trend`/`action` `if`/`elif`/`else` chain of
`generate_insights` (src/model.py), verbatim (Python's short-circuit
`and` on two comparisons is `&&`). -/
def techPairOf (current_price sma_20 sma_50 : FP) : String × String :=
  if FP.gt current_price sma_20 && FP.gt sma_20 sma_50 then
    ("STRONG UPTREND", "BUY / HOLD 🟢")
  else if FP.lt current_price sma_20 && FP.lt sma_20 sma_50 then
    ("STRONG DOWNTREND", "SELL 🔴")
  else
    ("CONSOLIDATING", "WAIT 🟡")

/-- Embedding of `generate_insights(forecast, historical_data,
days_ahead)` from src/model.py.  `iloc[-1]` on an empty dataframe
raises IndexError, modelled as `none`; otherwise the function is total:
the percentage change is computed with float semantics (no
division-by-zero guard) and each label chain mirrors the source's
`if`/`elif`/`else` chains verbatim. -/
def generate_insights (forecast : List FcRow) (historical_data : List HistRow)
    (days_ahead : ℤ) : Option InsightRecord :=
  match historical_data.getLast? with
  | none => none
  | some latest_hist =>
    match forecast.getLast? with
    | none => none
    | some future_pred =>
      some {
        current_price := latest_hist.y
        predicted_price := future_pred.yhat
        lower_bound := future_pred.yhat_lower
        upper_bound := future_pred.yhat_upper
        days_ahead := days_ahead
        forecast_trend := forecastTrendOf (pctChangeOf future_pred latest_hist)
        pct_change := pctChangeOf future_pred latest_hist
        sma_20 := latest_hist.sma_20
        sma_50 := latest_hist.sma_50
        rsi_14 := latest_hist.rsi_14
        rsi_signal := rsiSignalOf latest_hist.rsi_14
        tech_trend := (techPairOf latest_hist.y latest_hist.sma_20 latest_hist.sma_50).1
        action := (techPairOf latest_hist.y latest_hist.sma_20 latest_hist.sma_50).2 }

/-! ## Forecast model lifecycle (src/model.py, `GoldForecastModel`) -/

/-- A row of the preprocessed table returned by `preprocess_data`
(src/data_fetcher.py): columns `ds`, `y`, `SMA_20`, `SMA_50`, `RSI_14`,
`USD_Index`, `Treasury_Yield`.  The indicator columns are `Option`
(NaN during the rolling-window warm-up); `ds` is a day number. -/
structure ProcRow where
  ds : ℤ
  y : ℚ
  sma_20 : Option ℚ
  sma_50 : Option ℚ
  rsi_14 : Option ℚ
  usd_index : ℚ
  treasury_yield : ℚ
deriving DecidableEq, Inhabited

/-- A row of the `future` dataframe built inside
`GoldForecastModel.predict`: the date axis plus the two regressor
columns Prophet is given. -/
structure FutureRow where
  ds : ℤ
  usd_index : ℚ
  treasury_yield : ℚ
deriving DecidableEq

/-- State of `GoldForecastModel` (src/model.py): the Prophet instance
itself is an opaque external collaborator; the lifecycle state the
source manages is the single `is_fitted` flag. -/
structure GoldForecastModel where
  is_fitted : Bool
deriving DecidableEq

/-- `GoldForecastModel.__init__`: starts unfitted. -/
def GoldForecastModel.init : GoldForecastModel := ⟨false⟩

/-- `GoldForecastModel.fit`: the numeric Prophet fit is external; the
state effect is `self.is_fitted = True`. -/
def GoldForecastModel.fit (m : GoldForecastModel) : GoldForecastModel :=
  { m with is_fitted := true }

/-- Embedding of `GoldForecastModel.predict(historical_df, days_ahead)`
(src/model.py) up to the point where the `future` dataframe is handed to
Prophet; the Prophet numeric forecast itself is an opaque external
collaborator, so the embedded function returns the prepared `future`
regressor frame.  `make_future_dataframe` extends the date axis by
`days_ahead` consecutive days past the last date (the source fits and
predicts on the same table, so the history axis is `historical_df`'s);
the left merge on `ds` takes regressor values verbatim from
`historical_df` where the date exists there and `fillna` fills the
remaining (future) dates with the last historical row's values.
Unfitted state raises ValueError, empty history raises IndexError at
`iloc[-1]`; both are modelled as `Except.error`. -/
def GoldForecastModel.predict (m : GoldForecastModel)
    (historical_df : List ProcRow) (days_ahead : ℕ) :
    Except String (List FutureRow) :=
  if m.is_fitted = false then
    .error "Model must be fitted before predicting."
  else
    match historical_df.getLast? with
    | none => .error "single positional indexer is out-of-bounds"
    | some lastRow =>
      let future_ds := historical_df.map (fun r => r.ds) ++
        (List.range days_ahead).map (fun i : ℕ => lastRow.ds + (i : ℤ) + 1)
      .ok (future_ds.map (fun d =>
        match historical_df.find? (fun r => r.ds == d) with
        | some r => ⟨d, r.usd_index, r.treasury_yield⟩
        | none => ⟨d, lastRow.usd_index, lastRow.treasury_yield⟩))

set_option linter.unusedVariables false in
/-- Embedding of `GoldForecastModel.evaluate(initial, period, horizon)`
(src/model.py) up to the fitted-state check; the cross-validation and
metrics computation are external collaborators
(`prophet.diagnostics`). -/
def GoldForecastModel.evaluate (m : GoldForecastModel)
    (initial period horizon : String) : Except String Unit :=
  if m.is_fitted = false then
    .error "Model must be fitted before evaluating."
  else
    .ok ()


/-! ## Data fetching and alignment (src/data_fetcher.py, `fetch_all_data`) -/

/-- A row of the merged table built inside `fetch_all_data`: date index
plus the three Close columns (`Close`, `USD_Index`, `Treasury_Yield`);
`none` models NaN. -/
structure MergedRow where
  ds : ℤ
  close : Option ℚ
  usd_index : Option ℚ
  treasury_yield : Option ℚ
deriving DecidableEq

/-- Value of a raw series at a date (`none` = that date is absent from
the series' index). -/
def seriesLookup (s : List (ℤ × ℚ)) (d : ℤ) : Option ℚ :=
  (s.find? (fun p => p.1 == d)).map (fun p => p.2)

/-- Insert a date into a sorted duplicate-free date list. -/
def insertDate (x : ℤ) : List ℤ → List ℤ
  | [] => [x]
  | y :: ys =>
    if x < y then x :: y :: ys
    else if x = y then y :: ys
    else y :: insertDate x ys

/-- Sorted duplicate-free union of a list of dates. -/
def dateUnion (l : List ℤ) : List ℤ := l.foldr insertDate []

/-- The union date index of the three series, as produced by
`pd.concat([...], axis=1)`. -/
def allDates (gold dxy tnx : List (ℤ × ℚ)) : List ℤ :=
  dateUnion (gold.map Prod.fst ++ dxy.map Prod.fst ++ tnx.map Prod.fst)

/-- The outer-aligned table before filling: one row per union date,
each column holding the raw value or NaN. -/
def concatRows (gold dxy tnx : List (ℤ × ℚ)) : List MergedRow :=
  (allDates gold dxy tnx).map (fun day =>
    ⟨day, seriesLookup gold day, seriesLookup dxy day, seriesLookup tnx day⟩)

/-- `merged_df.ffill(inplace=True)`: every column (the gold Close
included) carries its most recent non-NaN value forward; the carry
starts empty, so leading NaNs stay NaN. -/
def ffillRows (carry : Option ℚ × Option ℚ × Option ℚ) :
    List MergedRow → List MergedRow
  | [] => []
  | r :: rs =>
    let c := r.close.orElse (fun _ => carry.1)
    let u := r.usd_index.orElse (fun _ => carry.2.1)
    let x := r.treasury_yield.orElse (fun _ => carry.2.2)
    ⟨r.ds, c, u, x⟩ :: ffillRows (c, u, x) rs

/-- Embedding of `fetch_all_data` (src/data_fetcher.py) downstream of
the network download: the three raw Close series are parameters
(yfinance is an external collaborator).  The source concat-aligns the
three series on the date index, forward-fills the whole table
(`merged_df.ffill(inplace=True)`), then drops the rows whose Close is
still NaN (`dropna(subset=['Close'], inplace=True)`). -/
def fetch_all_data (gold dxy tnx : List (ℤ × ℚ)) : List MergedRow :=
  (ffillRows (none, none, none) (concatRows gold dxy tnx)).filter
    (fun r => r.close.isSome)

/-- The most recent raw value of a series at or before a date — the
forward-filled view of the series. -/
def ffillValue (s : List (ℤ × ℚ)) (day : ℤ) : Option ℚ :=
  ((s.filter (fun p => decide (p.1 ≤ day))).getLast?).map (fun p => p.2)

/-- The most recent raw value of a series strictly before a date. -/
def prevValue (s : List (ℤ × ℚ)) (day : ℤ) : Option ℚ :=
  ((s.filter (fun p => decide (p.1 < day))).getLast?).map (fun p => p.2)

/-! ## Preprocessing and feature derivation (src/data_fetcher.py,
`preprocess_data`; indicators computed by pandas_ta's pure-pandas code
path: `ta.sma` is a rolling mean, `ta.rsi` is
`100 * rma(gains) / (rma(gains) + |rma(losses)|)` with
`rma(x) = x.ewm(alpha=1/length, min_periods=length).mean()`,
pandas `ewm` having its default `adjust=True`). -/

/-- A row of the merged table as `preprocess_data` consumes it (`Date`,
`Close`, `USD_Index`, `Treasury_Yield` defined), plus the three
indicator columns that `preprocess_data` writes into this same caller
table (`df['SMA_20'] = ...`): the outer `Option` is "column absent",
the inner one is NaN. -/
structure DataRow where
  ds : ℤ
  close : ℚ
  usd_index : ℚ
  treasury_yield : ℚ
  sma_20 : Option (Option ℚ)
  sma_50 : Option (Option ℚ)
  rsi_14 : Option (Option ℚ)
deriving DecidableEq, Inhabited

/-- Element of the close series at a 0-based index. -/
def closeAt (closes : List ℚ) (i : ℕ) : ℚ := closes.getD i 0

/-- `ta.sma(close, length=n)`: arithmetic mean of the trailing `n`
closes, NaN (`none`) while fewer than `n` closes are available. -/
def smaAt (n : ℕ) (closes : List ℚ) (i : ℕ) : Option ℚ :=
  if n ≤ i + 1 then
    some ((∑ j ∈ Finset.range n, closeAt closes (i - j)) / (n : ℚ))
  else none

/-- `close.diff(1)` at row `j ≥ 1` (row 0 of the diff series is NaN in
the source and is excluded from the averages below). -/
def diffAt (closes : List ℚ) (j : ℕ) : ℚ :=
  closeAt closes j - closeAt closes (j - 1)

/-- The gain series of `ta.rsi`: moves below 0 clipped to 0. -/
def gainAt (closes : List ℚ) (j : ℕ) : ℚ := max (diffAt closes j) 0

/-- The loss series of `ta.rsi`: moves above 0 clipped to 0. -/
def lossAt (closes : List ℚ) (j : ℕ) : ℚ := min (diffAt closes j) 0

/-- Weight of observation `j` in pandas `ewm(alpha=1/14, adjust=True)`
at row `t`: `(1 - 1/14)^(t - j)`. -/
def rmaWeight (t j : ℕ) : ℚ := (13 / 14) ^ (t - j)

/-- Weighted sum of `f` over the non-NaN diff positions `1 .. t`. -/
def rmaNum (f : ℕ → ℚ) (t : ℕ) : ℚ :=
  ∑ k ∈ Finset.range t, rmaWeight t (k + 1) * f (k + 1)

/-- pandas_ta `rma(x, length=14)` at row `t`:
`x.ewm(alpha=1/14, min_periods=14).mean()`, the adjusted weighted mean
over all observations so far. -/
def rmaAt (f : ℕ → ℚ) (t : ℕ) : ℚ :=
  rmaNum f t / rmaNum (fun _ => 1) t

/-- `ta.rsi(close, length=14)` at row `t`:
`100 * positive_avg / (positive_avg + negative_avg.abs())`.  NaN
(`none`) for the first 14 rows (`diff` makes row 0 NaN and
`min_periods=14` requires 14 observations), and NaN later exactly when
`positive_avg + |negative_avg| = 0` — a pandas `0/0 = NaN` division,
which happens iff every price change up to row `t` is zero. -/
def rsiAt (closes : List ℚ) (t : ℕ) : Option ℚ :=
  if 14 ≤ t then
    let positive_avg := rmaAt (gainAt closes) t
    let negative_avg := rmaAt (lossAt closes) t
    if positive_avg + |negative_avg| = 0 then none
    else some (100 * positive_avg / (positive_avg + |negative_avg|))
  else none

/-- Row `i` of `processed_df` before the final `dropna`: the
select/rename of `preprocess_data` (`Date → ds`, `Close → y`) plus the
three indicators evaluated at row `i`. -/
def featureRowAt (df : List DataRow) (i : ℕ) : ProcRow :=
  let r := df.getD i default
  ⟨r.ds, r.close, smaAt 20 (df.map (fun s => s.close)) i,
    smaAt 50 (df.map (fun s => s.close)) i,
    rsiAt (df.map (fun s => s.close)) i, r.usd_index, r.treasury_yield⟩

/-- `processed_df` before the final `dropna`. -/
def featureTable (df : List DataRow) : List ProcRow :=
  (List.range df.length).map (featureRowAt df)

/-- The in-place effect of `preprocess_data` on its argument: the three
indicator columns are written into the caller's table
(`df['SMA_20'] = ta.sma(df['Close'], length=20)` and likewise for
SMA_50 and RSI_14); every other column and the row set are untouched. -/
def addIndicators (df : List DataRow) : List DataRow :=
  (List.range df.length).map (fun i =>
    { df.getD i default with
      sma_20 := some (smaAt 20 (df.map (fun s => s.close)) i)
      sma_50 := some (smaAt 50 (df.map (fun s => s.close)) i)
      rsi_14 := some (rsiAt (df.map (fun s => s.close)) i) })

/-- Embedding of `preprocess_data(df)` (src/data_fetcher.py), returned
as the pair (caller's table after the call, returned table).  The
source mutates its argument by assigning the three indicator columns,
then builds `processed_df` (select + rename) and applies `dropna()`,
which keeps exactly the rows whose indicators are all defined (`ds`,
`y` and the regressors are never NaN in this table shape).  An empty
input is returned unchanged ( `if df.empty: return df` ). -/
def preprocess_data (df : List DataRow) : List DataRow × List ProcRow :=
  if df.isEmpty then (df, [])
  else (addIndicators df,
    (featureTable df).filter (fun r =>
      r.sma_20.isSome && r.sma_50.isSome && r.rsi_14.isSome))

/-! ## Theorems -/

theorem FP.lt_nan_left (x : FP) : FP.lt .nan x = false := by cases x <;> rfl

theorem FP.lt_nan_right (x : FP) : FP.lt x .nan = false := by cases x <;> rfl

theorem FP.sub_nan_left (x : FP) : FP.sub .nan x = .nan := by cases x <;> rfl

theorem FP.sub_nan_right (x : FP) : FP.sub x .nan = .nan := by cases x <;> rfl

theorem FP.div_nan_left (x : FP) : FP.div .nan x = .nan := by cases x <;> rfl

/-- On non-empty inputs `generate_insights` returns exactly the record
assembled from the two last rows. -/
theorem generate_insights_getLast (forecast : List FcRow) (hist : List HistRow)
    (d : ℤ) (lh : HistRow) (fp : FcRow)
    (hlh : hist.getLast? = some lh) (hfp : forecast.getLast? = some fp) :
    generate_insights forecast hist d = some {
      current_price := lh.y
      predicted_price := fp.yhat
      lower_bound := fp.yhat_lower
      upper_bound := fp.yhat_upper
      days_ahead := d
      forecast_trend := forecastTrendOf (pctChangeOf fp lh)
      pct_change := pctChangeOf fp lh
      sma_20 := lh.sma_20
      sma_50 := lh.sma_50
      rsi_14 := lh.rsi_14
      rsi_signal := rsiSignalOf lh.rsi_14
      tech_trend := (techPairOf lh.y lh.sma_20 lh.sma_50).1
      action := (techPairOf lh.y lh.sma_20 lh.sma_50).2 } := by
  unfold generate_insights
  rw [hlh, hfp]

/-- With finite pct_change the `forecast_trend` chain reduces to
rational comparisons. -/
theorem forecastTrendOf_fin (q : ℚ) :
    forecastTrendOf (.fin q) =
      if 3/2 < q then "Strong Bullish 📈"
      else if 0 < q then "Slightly Bullish ↗️"
      else if q < -(3/2) then "Strong Bearish 📉"
      else "Slightly Bearish ↘️" := by
  simp [forecastTrendOf, FP.gt, FP.lt]

theorem forecastTrend_cases (q : ℚ) :
    (3/2 < q → forecastTrendOf (.fin q) = "Strong Bullish 📈") ∧
    (0 < q ∧ q ≤ 3/2 → forecastTrendOf (.fin q) = "Slightly Bullish ↗️") ∧
    (q < -(3/2) → forecastTrendOf (.fin q) = "Strong Bearish 📉") ∧
    (-(3/2) ≤ q ∧ q ≤ 0 → forecastTrendOf (.fin q) = "Slightly Bearish ↘️") := by
  rw [forecastTrendOf_fin]
  refine ⟨?_, ?_, ?_, ?_⟩
  · intro h; rw [if_pos h]
  · rintro ⟨h1, h2⟩; rw [if_neg (by linarith), if_pos h1]
  · intro h; rw [if_neg (by linarith), if_neg (by linarith), if_pos h]
  · rintro ⟨h1, h2⟩
    rw [if_neg (by linarith), if_neg (by linarith), if_neg (by linarith)]

theorem rsiSignalOf_fin (v : ℚ) :
    rsiSignalOf (.fin v) =
      if v < 30 then "OVERSOLD (Consider Buying)"
      else if 70 < v then "OVERBOUGHT (Consider Selling)"
      else "NEUTRAL" := by
  simp [rsiSignalOf, FP.gt, FP.lt]

theorem techPairOf_fin (p s20 s50 : ℚ) :
    techPairOf (.fin p) (.fin s20) (.fin s50) =
      if s20 < p ∧ s50 < s20 then ("STRONG UPTREND", "BUY / HOLD 🟢")
      else if p < s20 ∧ s20 < s50 then ("STRONG DOWNTREND", "SELL 🔴")
      else ("CONSOLIDATING", "WAIT 🟡") := by
  simp [techPairOf, FP.gt, FP.lt, Bool.and_eq_true, decide_eq_true_eq]

/-- With finite inputs and non-zero current price, pct_change is the
exact rational percentage. -/
theorem pctChangeOf_fin (fp : FcRow) (lh : HistRow) (p c : ℚ)
    (hyh : fp.yhat = FP.fin p) (hy : lh.y = FP.fin c) (hc : c ≠ 0) :
    pctChangeOf fp lh = FP.fin ((p - c) / c * 100) := by
  simp [pctChangeOf, hy, hyh, FP.sub, FP.div, FP.mul, hc]

/-- C1: for every insight computation whose latest close `y` is a finite
non-zero value `c` and whose final predicted value is a finite `p`,
`generate_insights` sets `pct_change = (p - c) / c * 100` and classifies
`forecast_trend` as: pct > 1.5 → "Strong Bullish"; 0 < pct ≤ 1.5 →
"Slightly Bullish"; pct < -1.5 → "Strong Bearish"; otherwise (including
pct = 0 and pct = -1.5) → "Slightly Bearish". -/
theorem C1_forecast_trend_classification
    (forecast : List FcRow) (hist : List HistRow) (d : ℤ)
    (lh : HistRow) (fp : FcRow) (c p : ℚ)
    (hlh : hist.getLast? = some lh) (hfp : forecast.getLast? = some fp)
    (hy : lh.y = FP.fin c) (hyh : fp.yhat = FP.fin p) (hc : c ≠ 0) :
    ∃ r, generate_insights forecast hist d = some r ∧
      r.pct_change = FP.fin ((p - c) / c * 100) ∧
      (3/2 < (p - c) / c * 100 → r.forecast_trend = "Strong Bullish 📈") ∧
      (0 < (p - c) / c * 100 ∧ (p - c) / c * 100 ≤ 3/2 →
        r.forecast_trend = "Slightly Bullish ↗️") ∧
      ((p - c) / c * 100 < -(3/2) → r.forecast_trend = "Strong Bearish 📉") ∧
      (-(3/2) ≤ (p - c) / c * 100 ∧ (p - c) / c * 100 ≤ 0 →
        r.forecast_trend = "Slightly Bearish ↘️") := by
  have hpc := pctChangeOf_fin fp lh p c hyh hy hc
  obtain ⟨hA, hB, hC, hD⟩ := forecastTrend_cases ((p - c) / c * 100)
  refine ⟨_, generate_insights_getLast forecast hist d lh fp hlh hfp,
    ?_, ?_, ?_, ?_, ?_⟩
  · simpa using hpc
  · intro h; simpa [hpc] using hA h
  · intro h; simpa [hpc] using hB h
  · intro h; simpa [hpc] using hC h
  · intro h; simpa [hpc] using hD h

/-- C1 witness: with current price 100 and predicted price 103,
pct_change is 3 and the forecast trend is "Strong Bullish". -/
theorem C1_forecast_trend_classification_witness :
    (generate_insights [⟨0, .fin 103, .fin 95, .fin 110⟩]
        [⟨0, .fin 100, .fin 99, .fin 98, .fin 50⟩] 30).map
      (fun r => r.forecast_trend) = some "Strong Bullish 📈" := by
  obtain ⟨r, hr, hpc, h1, h2, h3, h4⟩ :=
    C1_forecast_trend_classification
      [⟨0, .fin 103, .fin 95, .fin 110⟩]
      [⟨0, .fin 100, .fin 99, .fin 98, .fin 50⟩] 30
      ⟨0, .fin 100, .fin 99, .fin 98, .fin 50⟩
      ⟨0, .fin 103, .fin 95, .fin 110⟩ 100 103 rfl rfl rfl rfl (by norm_num)
  rw [hr]
  simp [h1 (by norm_num)]

/-- C2: for every latest feature row with finite close and SMAs,
`generate_insights` assigns `tech_trend`/`action` by the strict
three-way partition: price > SMA20 > SMA50 → "STRONG UPTREND"/"BUY /
HOLD"; price < SMA20 < SMA50 → "STRONG DOWNTREND"/"SELL"; every other
combination (ties included) → "CONSOLIDATING"/"WAIT". -/
theorem C2_tech_trend_partition
    (forecast : List FcRow) (hist : List HistRow) (d : ℤ)
    (lh : HistRow) (fp : FcRow) (p s20 s50 : ℚ)
    (hlh : hist.getLast? = some lh) (hfp : forecast.getLast? = some fp)
    (hy : lh.y = FP.fin p) (h20 : lh.sma_20 = FP.fin s20)
    (h50 : lh.sma_50 = FP.fin s50) :
    ∃ r, generate_insights forecast hist d = some r ∧
      (p > s20 ∧ s20 > s50 →
        r.tech_trend = "STRONG UPTREND" ∧ r.action = "BUY / HOLD 🟢") ∧
      (p < s20 ∧ s20 < s50 →
        r.tech_trend = "STRONG DOWNTREND" ∧ r.action = "SELL 🔴") ∧
      (¬(p > s20 ∧ s20 > s50) → ¬(p < s20 ∧ s20 < s50) →
        r.tech_trend = "CONSOLIDATING" ∧ r.action = "WAIT 🟡") := by
  refine ⟨_, generate_insights_getLast forecast hist d lh fp hlh hfp,
    ?_, ?_, ?_⟩
  · rintro ⟨h1, h2⟩
    have ht : techPairOf lh.y lh.sma_20 lh.sma_50 =
        ("STRONG UPTREND", "BUY / HOLD 🟢") := by
      rw [hy, h20, h50, techPairOf_fin, if_pos ⟨h1, h2⟩]
    simp [ht]
  · rintro ⟨h1, h2⟩
    have ht : techPairOf lh.y lh.sma_20 lh.sma_50 =
        ("STRONG DOWNTREND", "SELL 🔴") := by
      rw [hy, h20, h50, techPairOf_fin,
        if_neg (by rintro ⟨hA, hB⟩; exact absurd h1 (not_lt.mpr hA.le)),
        if_pos ⟨h1, h2⟩]
    simp [ht]
  · intro h1 h2
    have ht : techPairOf lh.y lh.sma_20 lh.sma_50 =
        ("CONSOLIDATING", "WAIT 🟡") := by
      rw [hy, h20, h50, techPairOf_fin, if_neg h1, if_neg h2]
    simp [ht]

/-- C2 witness: price 100 > SMA20 99 > SMA50 98 gives the strong-uptrend
labels. -/
theorem C2_tech_trend_partition_witness :
    (generate_insights [⟨0, .fin 103, .fin 95, .fin 110⟩]
        [⟨0, .fin 100, .fin 99, .fin 98, .fin 50⟩] 30).map
      (fun r => (r.tech_trend, r.action))
      = some ("STRONG UPTREND", "BUY / HOLD 🟢") := by
  obtain ⟨r, hr, h1, h2, h3⟩ :=
    C2_tech_trend_partition
      [⟨0, .fin 103, .fin 95, .fin 110⟩]
      [⟨0, .fin 100, .fin 99, .fin 98, .fin 50⟩] 30
      ⟨0, .fin 100, .fin 99, .fin 98, .fin 50⟩
      ⟨0, .fin 103, .fin 95, .fin 110⟩ 100 99 98 rfl rfl rfl rfl rfl
  obtain ⟨ht, ha⟩ := h1 (by norm_num)
  rw [hr]
  simp [ht, ha]

/-- C3: for every latest feature row with finite RSI, `generate_insights`
assigns `rsi_signal` with strict boundaries: RSI < 30 → oversold label,
RSI > 70 → overbought label, everything else — including exactly 30 and
exactly 70 — the neutral label. -/
theorem C3_rsi_signal_boundaries
    (forecast : List FcRow) (hist : List HistRow) (d : ℤ)
    (lh : HistRow) (fp : FcRow) (v : ℚ)
    (hlh : hist.getLast? = some lh) (hfp : forecast.getLast? = some fp)
    (hv : lh.rsi_14 = FP.fin v) :
    ∃ r, generate_insights forecast hist d = some r ∧
      (v < 30 → r.rsi_signal = "OVERSOLD (Consider Buying)") ∧
      (70 < v → r.rsi_signal = "OVERBOUGHT (Consider Selling)") ∧
      (30 ≤ v ∧ v ≤ 70 → r.rsi_signal = "NEUTRAL") := by
  refine ⟨_, generate_insights_getLast forecast hist d lh fp hlh hfp,
    ?_, ?_, ?_⟩
  · intro h
    have : rsiSignalOf lh.rsi_14 = "OVERSOLD (Consider Buying)" := by
      rw [hv, rsiSignalOf_fin, if_pos h]
    simpa using this
  · intro h
    have : rsiSignalOf lh.rsi_14 = "OVERBOUGHT (Consider Selling)" := by
      rw [hv, rsiSignalOf_fin, if_neg (by linarith), if_pos h]
    simpa using this
  · rintro ⟨h1, h2⟩
    have : rsiSignalOf lh.rsi_14 = "NEUTRAL" := by
      rw [hv, rsiSignalOf_fin, if_neg (by linarith), if_neg (by linarith)]
    simpa using this

/-- C3 witness: RSI exactly 30 is classified "NEUTRAL". -/
theorem C3_rsi_signal_boundaries_witness :
    (generate_insights [⟨0, .fin 103, .fin 95, .fin 110⟩]
        [⟨0, .fin 100, .fin 99, .fin 98, .fin 30⟩] 30).map
      (fun r => r.rsi_signal) = some "NEUTRAL" := by
  obtain ⟨r, hr, h1, h2, h3⟩ :=
    C3_rsi_signal_boundaries
      [⟨0, .fin 103, .fin 95, .fin 110⟩]
      [⟨0, .fin 100, .fin 99, .fin 98, .fin 30⟩] 30
      ⟨0, .fin 100, .fin 99, .fin 98, .fin 30⟩
      ⟨0, .fin 103, .fin 95, .fin 110⟩ 30 rfl rfl rfl
  rw [hr]
  simp [h3 (by norm_num)]

/-- C4 counterexample: with current price exactly 0 (and predicted price
100), `generate_insights` does not fail — it silently returns a record
whose `pct_change` is non-finite (+∞) and classifies it "Strong
Bullish", refuting the claim that the insight record cannot be
computed. -/
theorem C4_counterexample :
    (generate_insights [⟨0, .fin 100, .fin 90, .fin 110⟩]
        [⟨0, .fin 0, .fin 1, .fin 2, .fin 50⟩] 30).map
      (fun r => (r.pct_change, r.forecast_trend))
      = some (FP.pinf, "Strong Bullish 📈") := by
  with_unfolding_all rfl

/-- C4 (amended): when the latest close is exactly 0, `generate_insights`
does not fail hard; it returns a record whose `pct_change` is
non-finite — +∞ when the predicted price is positive, −∞ when negative,
NaN when zero — and classifies the trend through the same chain (+∞ →
"Strong Bullish", −∞ → "Strong Bearish", NaN → "Slightly Bearish"). -/
theorem C4_zero_price_silent
    (forecast : List FcRow) (hist : List HistRow) (d : ℤ)
    (lh : HistRow) (fp : FcRow) (p : ℚ)
    (hlh : hist.getLast? = some lh) (hfp : forecast.getLast? = some fp)
    (hy : lh.y = FP.fin 0) (hyh : fp.yhat = FP.fin p) :
    ∃ r, generate_insights forecast hist d = some r ∧
      r.pct_change =
        (if 0 < p then FP.pinf else if p < 0 then FP.ninf else FP.nan) ∧
      (0 < p → r.forecast_trend = "Strong Bullish 📈") ∧
      (p < 0 → r.forecast_trend = "Strong Bearish 📉") ∧
      (p = 0 → r.forecast_trend = "Slightly Bearish ↘️") := by
  have hpc : pctChangeOf fp lh =
      (if 0 < p then FP.pinf else if p < 0 then FP.ninf else FP.nan) := by
    rcases lt_trichotomy 0 p with h | h | h
    · simp [pctChangeOf, hy, hyh, FP.sub, FP.div, FP.mul, h, not_lt.mpr h.le]
    · simp [pctChangeOf, hy, hyh, FP.sub, FP.div, FP.mul, ← h]
    · simp [pctChangeOf, hy, hyh, FP.sub, FP.div, FP.mul, h, not_lt.mpr h.le,
        asymm h]
  refine ⟨_, generate_insights_getLast forecast hist d lh fp hlh hfp,
    ?_, ?_, ?_, ?_⟩
  · simpa using hpc
  · intro h
    have : forecastTrendOf (pctChangeOf fp lh) = "Strong Bullish 📈" := by
      rw [hpc, if_pos h]; rfl
    simpa using this
  · intro h
    have : forecastTrendOf (pctChangeOf fp lh) = "Strong Bearish 📉" := by
      rw [hpc, if_neg (by linarith), if_pos h]; rfl
    simpa using this
  · intro h
    have : forecastTrendOf (pctChangeOf fp lh) = "Slightly Bearish ↘️" := by
      rw [hpc, if_neg (by simp [h]), if_neg (by simp [h])]; rfl
    simpa using this

/-- C4 (amended) witness: the concrete zero-price run returns the
record with `pct_change` +∞. -/
theorem C4_zero_price_silent_witness :
    (generate_insights [⟨0, .fin 100, .fin 90, .fin 110⟩]
        [⟨0, .fin 0, .fin 1, .fin 2, .fin 50⟩] 30).map
      (fun r => r.pct_change) = some FP.pinf := by
  obtain ⟨r, hr, hpc, h1, h2, h3⟩ :=
    C4_zero_price_silent
      [⟨0, .fin 100, .fin 90, .fin 110⟩]
      [⟨0, .fin 0, .fin 1, .fin 2, .fin 50⟩] 30
      ⟨0, .fin 0, .fin 1, .fin 2, .fin 50⟩
      ⟨0, .fin 100, .fin 90, .fin 110⟩ 100 rfl rfl rfl rfl
  rw [hr]
  simp only [Option.map_some']
  rw [hpc, if_pos (by norm_num : (0:ℚ) < 100)]

/-- C10: when classification inputs are NaN, `generate_insights` does
not fail: every NaN comparison is false, so the NaN axis falls through
to its else branch — NaN RSI → "NEUTRAL"; NaN price or NaN SMA →
"CONSOLIDATING"/"WAIT"; NaN price or NaN prediction → NaN pct_change →
"Slightly Bearish". -/
theorem C10_nan_fall_through
    (forecast : List FcRow) (hist : List HistRow) (d : ℤ)
    (lh : HistRow) (fp : FcRow)
    (hlh : hist.getLast? = some lh) (hfp : forecast.getLast? = some fp) :
    ∃ r, generate_insights forecast hist d = some r ∧
      (lh.rsi_14 = FP.nan → r.rsi_signal = "NEUTRAL") ∧
      ((lh.y = FP.nan ∨ lh.sma_20 = FP.nan ∨ lh.sma_50 = FP.nan) →
        r.tech_trend = "CONSOLIDATING" ∧ r.action = "WAIT 🟡") ∧
      ((lh.y = FP.nan ∨ fp.yhat = FP.nan) → r.pct_change = FP.nan) ∧
      (r.pct_change = FP.nan → r.forecast_trend = "Slightly Bearish ↘️") := by
  refine ⟨_, generate_insights_getLast forecast hist d lh fp hlh hfp,
    ?_, ?_, ?_, ?_⟩
  · intro h
    simp [rsiSignalOf, h, FP.gt, FP.lt_nan_left, FP.lt_nan_right]
  · intro h
    rcases h with h | h | h <;>
      simp [techPairOf, h, FP.gt, FP.lt_nan_left, FP.lt_nan_right]
  · intro h
    rcases h with h | h
    · simp [pctChangeOf, h, FP.sub_nan_right, FP.div_nan_left, FP.mul]
    · simp [pctChangeOf, h, FP.sub_nan_left, FP.div_nan_left, FP.mul]
  · intro h
    simp only at h
    simp [forecastTrendOf, h, FP.gt, FP.lt_nan_left, FP.lt_nan_right]

/-- C10 witness: with every indicator NaN and a NaN prediction, the
record carries exactly the four else-branch labels. -/
theorem C10_nan_fall_through_witness :
    (generate_insights [⟨0, .nan, .nan, .nan⟩]
        [⟨0, .fin 100, .nan, .nan, .nan⟩] 30).map
      (fun r => (r.rsi_signal, r.tech_trend, r.action, r.forecast_trend))
      = some ("NEUTRAL", "CONSOLIDATING", "WAIT 🟡", "Slightly Bearish ↘️") := by
  obtain ⟨r, hr, h1, h2, h3, h4⟩ :=
    C10_nan_fall_through
      [⟨0, .nan, .nan, .nan⟩] [⟨0, .fin 100, .nan, .nan, .nan⟩] 30
      ⟨0, .fin 100, .nan, .nan, .nan⟩ ⟨0, .nan, .nan, .nan⟩ rfl rfl
  obtain ⟨ht, ha⟩ := h2 (Or.inr (Or.inl rfl))
  rw [hr]
  simp [h1 rfl, ht, ha, h4 (h3 (Or.inr rfl))]

/-- In a date-sorted table, looking up a member row's date finds exactly
that row. -/
theorem find?_ds_self (hist : List ProcRow)
    (hsort : hist.Pairwise (fun a b => a.ds < b.ds))
    (r : ProcRow) (hr : r ∈ hist) :
    hist.find? (fun x => x.ds == r.ds) = some r := by
  induction hist with
  | nil => cases hr
  | cons a t ih =>
    rcases List.mem_cons.mp hr with h | h
    · subst h
      exact List.find?_cons_of_pos _ (by simp)
    · have hlt : a.ds < r.ds := (List.pairwise_cons.mp hsort).1 r h
      rw [List.find?_cons_of_neg _ (by simp [Int.ne_of_lt hlt])]
      exact ih (List.pairwise_cons.mp hsort).2 h

/-- In a date-sorted table every date is at most the last row's date. -/
theorem ds_le_getLast (hist : List ProcRow)
    (hsort : hist.Pairwise (fun a b => a.ds < b.ds))
    (lastRow : ProcRow) (hl : hist.getLast? = some lastRow) :
    ∀ r ∈ hist, r.ds ≤ lastRow.ds := by
  induction hist with
  | nil => simp at hl
  | cons a t ih =>
    intro r hr
    cases t with
    | nil =>
      simp only [List.getLast?_singleton, Option.some.injEq] at hl
      rcases List.mem_singleton.mp hr with h
      rw [h, hl]
    | cons b t' =>
      have hl' : (b :: t').getLast? = some lastRow := by
        rw [List.getLast?_cons_cons] at hl; exact hl
      rcases List.mem_cons.mp hr with h | h
      · subst h
        have hmem : lastRow ∈ b :: t' := List.mem_of_getLast?_eq_some hl'
        exact le_of_lt ((List.pairwise_cons.mp hsort).1 lastRow hmem)
      · exact ih (List.pairwise_cons.mp hsort).2 hl' r h

/-- C6: for every fitted model, date-sorted historical table and
horizon, the future dataframe handed to Prophet carries, for each
historical date, exactly the regressor values of that historical row,
and for each of the `days_ahead` dates beyond the last one, regressors
constant and equal to the last historical row's values. -/
theorem C6_future_regressor_policy (m : GoldForecastModel)
    (hist : List ProcRow) (days_ahead : ℕ) (lastRow : ProcRow)
    (hm : m.is_fitted = true)
    (hl : hist.getLast? = some lastRow)
    (hsort : hist.Pairwise (fun a b => a.ds < b.ds)) :
    m.predict hist days_ahead = .ok (
      hist.map (fun r => ⟨r.ds, r.usd_index, r.treasury_yield⟩) ++
      (List.range days_ahead).map (fun i =>
        ⟨lastRow.ds + (i : ℤ) + 1, lastRow.usd_index, lastRow.treasury_yield⟩)) := by
  unfold GoldForecastModel.predict
  rw [hm, hl]
  simp only [Bool.true_eq_false, if_false]
  rw [List.map_append]
  refine congrArg₂ (fun a b => Except.ok (a ++ b)) ?_ ?_
  · rw [List.map_map]
    apply List.map_congr_left
    intro r hr
    simp only [Function.comp_apply]
    rw [find?_ds_self hist hsort r hr]
  · rw [List.map_map]
    apply List.map_congr_left
    intro i hi
    simp only [Function.comp_apply]
    have hnone : hist.find? (fun r => r.ds == lastRow.ds + (i : ℤ) + 1) = none := by
      rw [List.find?_eq_none]
      intro x hx
      have h1 : x.ds ≤ lastRow.ds := ds_le_getLast hist hsort lastRow hl x hx
      simp only [beq_iff_eq]
      omega
    rw [hnone]

/-- C6 witness: a two-row history with horizon 2 reproduces the
historical regressors verbatim and holds them constant afterwards. -/
theorem C6_future_regressor_policy_witness :
    (GoldForecastModel.init.fit).predict
        [⟨1, 100, none, none, none, 98, 4⟩, ⟨2, 101, none, none, none, 99, 5⟩] 2
      = .ok [⟨1, 98, 4⟩, ⟨2, 99, 5⟩, ⟨3, 99, 5⟩, ⟨4, 99, 5⟩] := by
  rw [C6_future_regressor_policy (GoldForecastModel.init.fit)
    [⟨1, 100, none, none, none, 98, 4⟩, ⟨2, 101, none, none, none, 99, 5⟩] 2
    ⟨2, 101, none, none, none, 99, 5⟩ rfl rfl (by decide)]
  with_unfolding_all rfl

/-- C7: for every model instance still in the unfitted state, `predict`
and `evaluate` fail with the invalid-model-state error (no forecast
frame or metrics result is produced); after `fit`, the same calls no
longer produce that error. -/
theorem C7_unfitted_state_errors (m : GoldForecastModel)
    (hist : List ProcRow) (days_ahead : ℕ) (initial period horizon : String)
    (hm : m.is_fitted = false) :
    m.predict hist days_ahead = .error "Model must be fitted before predicting." ∧
    m.evaluate initial period horizon = .error "Model must be fitted before evaluating." ∧
    m.fit.predict hist days_ahead ≠ .error "Model must be fitted before predicting." ∧
    m.fit.evaluate initial period horizon ≠ .error "Model must be fitted before evaluating." := by
  refine ⟨?_, ?_, ?_, ?_⟩
  · simp [GoldForecastModel.predict, hm]
  · simp [GoldForecastModel.evaluate, hm]
  · cases hl : hist.getLast? with
    | none => simp [GoldForecastModel.predict, GoldForecastModel.fit, hl]
    | some r => simp [GoldForecastModel.predict, GoldForecastModel.fit, hl]
  · simp [GoldForecastModel.evaluate, GoldForecastModel.fit]

/-- C7 witness: the freshly constructed model rejects `predict` and
`evaluate`; after `fit` neither call reports the invalid-state error. -/
theorem C7_unfitted_state_errors_witness :
    (GoldForecastModel.init.predict [] 30
        = .error "Model must be fitted before predicting.") ∧
    (GoldForecastModel.init.evaluate "1095 days" "180 days" "30 days"
        = .error "Model must be fitted before evaluating.") ∧
    (GoldForecastModel.init.fit.predict [] 30
        ≠ .error "Model must be fitted before predicting.") ∧
    (GoldForecastModel.init.fit.evaluate "1095 days" "180 days" "30 days"
        ≠ .error "Model must be fitted before evaluating.") :=
  C7_unfitted_state_errors GoldForecastModel.init [] 30
    "1095 days" "180 days" "30 days" rfl

/-- C5 counterexample: gold trades on days 1 and 3 but not day 2, while
the auxiliary series trade on all three days.  The output keeps a row
for day 2 whose Close is the forward-filled 100 — a target value that
does not exist in the raw gold series — refuting both that the target is
never imputed and that target-less rows are dropped. -/
theorem C5_counterexample :
    fetch_all_data [(1, 100), (3, 105)]
        [(1, 98), (2, 99), (3, 97)] [(1, 4), (2, 4), (3, 4)]
      = [⟨1, some 100, some 98, some 4⟩,
         ⟨2, some 100, some 99, some 4⟩,
         ⟨3, some 105, some 97, some 4⟩] ∧
    seriesLookup [(1, 100), (3, 105)] 2 = none :=
  ⟨by with_unfolding_all rfl, by with_unfolding_all rfl⟩

theorem mem_insertDate (x a : ℤ) (l : List ℤ) :
    a ∈ insertDate x l ↔ a = x ∨ a ∈ l := by
  induction l with
  | nil => simp [insertDate]
  | cons y ys ih =>
    by_cases h1 : x < y
    · simp [insertDate, h1]
    · by_cases h2 : x = y
      · subst h2
        have he : insertDate x (x :: ys) = x :: ys := by
          simp [insertDate, h1]
        rw [he, List.mem_cons]
        tauto
      · simp only [insertDate, if_neg h1, if_neg h2, List.mem_cons, ih]
        tauto

theorem sorted_insertDate (x : ℤ) (l : List ℤ)
    (h : l.Pairwise (· < ·)) : (insertDate x l).Pairwise (· < ·) := by
  induction l with
  | nil => simp [insertDate]
  | cons y ys ih =>
    obtain ⟨hy, hys⟩ := List.pairwise_cons.mp h
    by_cases h1 : x < y
    · simp only [insertDate, if_pos h1]
      refine List.pairwise_cons.mpr ⟨fun b hb => ?_, h⟩
      rcases List.mem_cons.mp hb with rfl | hb
      · exact h1
      · exact h1.trans (hy b hb)
    · by_cases h2 : x = y
      · subst h2
        simpa only [insertDate, if_neg h1, if_pos rfl] using h
      · have h3 : y < x := by omega
        simp only [insertDate, if_neg h1, if_neg h2]
        refine List.pairwise_cons.mpr ⟨fun b hb => ?_, ih hys⟩
        rcases (mem_insertDate x b ys).mp hb with rfl | hb
        · exact h3
        · exact hy b hb

theorem sorted_dateUnion (l : List ℤ) : (dateUnion l).Pairwise (· < ·) := by
  induction l with
  | nil => simp [dateUnion]
  | cons y ys ih => exact sorted_insertDate y (dateUnion ys) ih

theorem mem_dateUnion (l : List ℤ) (a : ℤ) : a ∈ dateUnion l ↔ a ∈ l := by
  induction l with
  | nil => simp [dateUnion]
  | cons y ys ih =>
    show a ∈ insertDate y (dateUnion ys) ↔ _
    rw [mem_insertDate, ih, List.mem_cons]

theorem seriesLookup_some_mem (s : List (ℤ × ℚ)) (d : ℤ) (v : ℚ)
    (h : seriesLookup s d = some v) : (d, v) ∈ s := by
  unfold seriesLookup at h
  cases hf : s.find? (fun p => p.1 == d) with
  | none => rw [hf] at h; simp at h
  | some p0 =>
    rw [hf] at h
    simp only [Option.map_some'] at h
    have h1 : p0.1 = d := by simpa using List.find?_some hf
    have h2 := List.mem_of_find?_eq_some hf
    have h3 : p0 = (d, v) := by
      cases p0
      simp_all
    rwa [h3] at h2

theorem seriesLookup_none (s : List (ℤ × ℚ)) (d : ℤ)
    (h : seriesLookup s d = none) : ∀ p ∈ s, p.1 ≠ d := by
  unfold seriesLookup at h
  cases hf : s.find? (fun p => p.1 == d) with
  | some p0 => rw [hf] at h; simp at h
  | none =>
    intro p hp
    simpa using List.find?_eq_none.mp hf p hp

theorem filter_le_eq_filter_lt_concat (g : List (ℤ × ℚ))
    (hg : g.Pairwise (fun p q => p.1 < q.1)) (day : ℤ) (v : ℚ)
    (hmem : (day, v) ∈ g) :
    g.filter (fun p => decide (p.1 ≤ day)) =
      g.filter (fun p => decide (p.1 < day)) ++ [(day, v)] := by
  induction g with
  | nil => cases hmem
  | cons q g' ih =>
    obtain ⟨hq, hg'⟩ := List.pairwise_cons.mp hg
    rcases List.mem_cons.mp hmem with heq | hmem'
    · subst heq
      rw [List.filter_cons_of_pos (by simp), List.filter_cons_of_neg (by simp)]
      have hnil_le : g'.filter (fun p => decide (p.1 ≤ day)) = [] := by
        rw [List.filter_eq_nil_iff]
        intro p hp
        have := hq p hp
        simp only [decide_eq_true_eq]
        omega
      have hnil_lt : g'.filter (fun p => decide (p.1 < day)) = [] := by
        rw [List.filter_eq_nil_iff]
        intro p hp
        have := hq p hp
        simp only [decide_eq_true_eq]
        omega
      rw [hnil_le, hnil_lt]
      rfl
    · have hqlt : q.1 < day := hq (day, v) hmem'
      rw [List.filter_cons_of_pos (by simp; omega),
        List.filter_cons_of_pos (by simpa using hqlt), ih hg' hmem',
        List.cons_append]

/-- A date present in a sorted raw series forward-fills to its own
value. -/
theorem ffillValue_of_lookup_some (g : List (ℤ × ℚ))
    (hg : g.Pairwise (fun p q => p.1 < q.1)) (day : ℤ) (v : ℚ)
    (h : seriesLookup g day = some v) : ffillValue g day = some v := by
  unfold ffillValue
  rw [filter_le_eq_filter_lt_concat g hg day v (seriesLookup_some_mem _ _ _ h),
    List.getLast?_concat]
  rfl

/-- A date absent from a raw series forward-fills to the most recent
strictly earlier value. -/
theorem ffillValue_of_lookup_none (g : List (ℤ × ℚ)) (day : ℤ)
    (h : seriesLookup g day = none) : ffillValue g day = prevValue g day := by
  unfold ffillValue prevValue
  have hfe : g.filter (fun p => decide (p.1 ≤ day)) =
      g.filter (fun p => decide (p.1 < day)) := by
    apply List.filter_congr
    intro p hp
    have := seriesLookup_none g day h p hp
    simp only [decide_eq_decide]
    omega
  rw [hfe]

/-- Characterization of the forward-filled Close column: over a sorted
date axis that contains every raw gold date, the filled Close at each
date is `ffillValue gold` there, provided the incoming carry is the
value forward-filled from strictly before the first date. -/
theorem ffill_close_spec (g dxy tnx : List (ℤ × ℚ))
    (hg : g.Pairwise (fun p q => p.1 < q.1)) :
    ∀ (l : List ℤ) (c u x : Option ℚ),
      l.Pairwise (· < ·) →
      (∀ p ∈ g, p.1 ∈ l ∨ (∀ day ∈ l, p.1 < day)) →
      (∀ day, l.head? = some day → c = prevValue g day) →
      (ffillRows (c, u, x) (l.map (fun day =>
          ⟨day, seriesLookup g day, seriesLookup dxy day, seriesLookup tnx day⟩))).map
        (fun r => (r.ds, r.close))
        = l.map (fun day => (day, ffillValue g day)) := by
  intro l
  induction l with
  | nil => intro c u x _ _ _; rfl
  | cons day t ih =>
    intro c u x hsort hcov hcarry
    obtain ⟨hd, ht⟩ := List.pairwise_cons.mp hsort
    have hcd : c = prevValue g day := hcarry day rfl
    have hA : (seriesLookup g day).orElse (fun _ => c) = ffillValue g day := by
      cases hf : seriesLookup g day with
      | some v => rw [ffillValue_of_lookup_some g hg day v hf]; rfl
      | none => rw [ffillValue_of_lookup_none g day hf, ← hcd]; rfl
    simp only [List.map_cons, ffillRows]
    refine congrArg₂ List.cons (by rw [hA]) ?_
    rw [ih ((seriesLookup g day).orElse (fun _ => c)) _ _ ht ?_ ?_]
    · intro p hp
      rcases hcov p hp with hin | hlt
      · rcases List.mem_cons.mp hin with heq | hin'
        · right; intro b hb; rw [heq]; exact hd b hb
        · left; exact hin'
      · right; intro b hb; exact hlt b (List.mem_cons_of_mem _ hb)
    · intro b hb
      cases t with
      | nil => simp at hb
      | cons b0 t' =>
        have hb0 : b0 = b := by simpa using hb
        subst hb0
        have hdb : day < b0 := hd b0 (List.mem_cons_self b0 t')
        rw [hA]
        unfold ffillValue prevValue
        have hfe : g.filter (fun p => decide (p.1 ≤ day)) =
            g.filter (fun p => decide (p.1 < b0)) := by
          apply List.filter_congr
          intro p hp
          simp only [decide_eq_decide]
          constructor
          · intro h1; omega
          · intro h1
            rcases hcov p hp with hin | hlt
            · rcases List.mem_cons.mp hin with heq | hin'
              · omega
              · exfalso
                rcases List.mem_cons.mp hin' with heq' | hin''
                · omega
                · have := (List.pairwise_cons.mp ht).1 p.1 hin''
                  omega
            · have := hlt day (List.mem_cons_self day (b0 :: t'))
              omega
        rw [hfe]

/-- Filtering rows on a defined Close commutes with projecting the
(date, Close) pairs. -/
theorem filter_map_pairs (rows : List MergedRow) (l : List ℤ)
    (f : ℤ → Option ℚ)
    (h : rows.map (fun r => (r.ds, r.close)) = l.map (fun day => (day, f day))) :
    (rows.filter (fun r => r.close.isSome)).map (fun r => (r.ds, r.close)) =
      (l.filter (fun day => (f day).isSome)).map (fun day => (day, f day)) := by
  induction rows generalizing l with
  | nil =>
    cases l with
    | nil => rfl
    | cons a l' => simp at h
  | cons r rs ih =>
    cases l with
    | nil => simp at h
    | cons day l' =>
      simp only [List.map_cons, List.cons.injEq, Prod.mk.injEq] at h
      obtain ⟨⟨hds, hcl⟩, h2⟩ := h
      by_cases hs : (f day).isSome = true
      · rw [List.filter_cons_of_pos (by rw [hcl]; exact hs),
          @List.filter_cons_of_pos ℤ (fun d => (f d).isSome) day l' hs,
          List.map_cons, List.map_cons, ih l' h2, hds, hcl]
      · rw [List.filter_cons_of_neg (by rw [hcl]; exact hs),
          @List.filter_cons_of_neg ℤ (fun d => (f d).isSome) day l' hs,
          ih l' h2]

/-- C5 (amended): the alignment stage forward-fills every column, the
gold target included; an output row's Close is always the most recent
raw target value at or before that row's date (in particular the
verbatim raw value on days the target trades), and a row survives
exactly when such a value exists — only rows before the first raw
target value are dropped. -/
theorem C5_target_forward_filled (gold dxy tnx : List (ℤ × ℚ))
    (hg : gold.Pairwise (fun p q => p.1 < q.1)) :
    (fetch_all_data gold dxy tnx).map (fun r => (r.ds, r.close)) =
      ((allDates gold dxy tnx).filter
        (fun day => (ffillValue gold day).isSome)).map
        (fun day => (day, ffillValue gold day)) ∧
    (∀ r ∈ fetch_all_data gold dxy tnx, r.close = ffillValue gold r.ds) ∧
    (∀ r ∈ fetch_all_data gold dxy tnx, ∀ v,
      seriesLookup gold r.ds = some v → r.close = some v) := by
  have hsortAD : (allDates gold dxy tnx).Pairwise (· < ·) :=
    sorted_dateUnion _
  have hmemAD : ∀ p ∈ gold, p.1 ∈ allDates gold dxy tnx := by
    intro p hp
    rw [allDates, mem_dateUnion]
    exact List.mem_append.mpr (Or.inl (List.mem_append.mpr
      (Or.inl (List.mem_map_of_mem Prod.fst hp))))
  have hcarry : ∀ day, (allDates gold dxy tnx).head? = some day →
      (none : Option ℚ) = prevValue gold day := by
    intro day hday
    symm
    unfold prevValue
    have hnil : gold.filter (fun p => decide (p.1 < day)) = [] := by
      rw [List.filter_eq_nil_iff]
      intro p hp
      simp only [decide_eq_true_eq, not_lt]
      have hpd := hmemAD p hp
      cases hAD : allDates gold dxy tnx with
      | nil => rw [hAD] at hday; simp at hday
      | cons a rest =>
        rw [hAD] at hday hpd
        simp only [List.head?_cons, Option.some.injEq] at hday
        subst hday
        rcases List.mem_cons.mp hpd with heq | hin
        · omega
        · have hs := hsortAD
          rw [hAD] at hs
          have := (List.pairwise_cons.mp hs).1 p.1 hin
          omega
    rw [hnil]
    rfl
  have hmain := ffill_close_spec gold dxy tnx hg (allDates gold dxy tnx)
    none none none hsortAD (fun p hp => Or.inl (hmemAD p hp)) hcarry
  have h1 : (fetch_all_data gold dxy tnx).map (fun r => (r.ds, r.close)) =
      ((allDates gold dxy tnx).filter
        (fun day => (ffillValue gold day).isSome)).map
        (fun day => (day, ffillValue gold day)) := by
    unfold fetch_all_data concatRows
    exact filter_map_pairs _ _ _ hmain
  have h2 : ∀ r ∈ fetch_all_data gold dxy tnx,
      r.close = ffillValue gold r.ds := by
    intro r hr
    have hmem : (r.ds, r.close) ∈
        (fetch_all_data gold dxy tnx).map (fun r => (r.ds, r.close)) :=
      List.mem_map_of_mem _ hr
    rw [h1] at hmem
    obtain ⟨day, _, heq⟩ := List.mem_map.mp hmem
    obtain ⟨hd, hc⟩ := Prod.mk.injEq .. |>.mp heq
    rw [← hc, hd]
  refine ⟨h1, h2, ?_⟩
  intro r hr v hv
  rw [h2 r hr, ffillValue_of_lookup_some gold hg r.ds v hv]

/-- C5 (amended) witness: the concrete three-day run — gold absent on
day 2 — produces exactly the forward-filled Close column. -/
theorem C5_target_forward_filled_witness :
    (fetch_all_data [(1, 100), (3, 105)]
        [(1, 98), (2, 99), (3, 97)] [(1, 4), (2, 4), (3, 4)]).map
      (fun r => (r.ds, r.close)) =
      ((allDates [(1, 100), (3, 105)]
          [(1, 98), (2, 99), (3, 97)] [(1, 4), (2, 4), (3, 4)]).filter
        (fun day => (ffillValue [(1, 100), (3, 105)] day).isSome)).map
        (fun day => (day, ffillValue [(1, 100), (3, 105)] day)) :=
  (C5_target_forward_filled [(1, 100), (3, 105)]
    [(1, 98), (2, 99), (3, 97)] [(1, 4), (2, 4), (3, 4)] (by decide)).1

set_option maxRecDepth 100000 in
/-- C8 counterexample: on a constant 50-row price series every price
change is zero, so RSI_14 is NaN (0/0) at every row; `dropna` then
drops all 50 rows, not just the first 49 — the output has 0 rows where
the claim demands 50 − 49 = 1. -/
theorem C8_counterexample :
    ((preprocess_data
        (List.replicate 50 (⟨0, 100, 1, 1, none, none, none⟩ : DataRow))).2).length
      = 0 ∧
    (List.replicate 50 (⟨0, 100, 1, 1, none, none, none⟩ : DataRow)).length - 49
      = 1 :=
  ⟨by with_unfolding_all rfl, by with_unfolding_all rfl⟩

/-- C9 counterexample: `preprocess_data` does not leave the caller's
table unchanged — after the call the one-row table carries the three
indicator columns (here `SMA_20 = some none`: column present, value
NaN), which the original table did not have. -/
theorem C9_counterexample :
    (preprocess_data [⟨0, 100, 1, 1, none, none, none⟩]).1
      ≠ [⟨0, 100, 1, 1, none, none, none⟩] := by
  with_unfolding_all decide

theorem rmaNum_one_pos (t : ℕ) (ht : 1 ≤ t) : 0 < rmaNum (fun _ => 1) t := by
  unfold rmaNum
  apply Finset.sum_pos
  · intro k _
    rw [mul_one]
    unfold rmaWeight
    positivity
  · exact ⟨0, Finset.mem_range.mpr (by omega)⟩

theorem rmaNum_nonpos (f : ℕ → ℚ) (t : ℕ) (hf : ∀ j, f j ≤ 0) :
    rmaNum f t ≤ 0 := by
  unfold rmaNum
  apply Finset.sum_nonpos
  intro k _
  exact mul_nonpos_of_nonneg_of_nonpos (by unfold rmaWeight; positivity) (hf _)

/-- Clipped gain minus clipped loss is the absolute move. -/
theorem gain_sub_loss (closes : List ℚ) (j : ℕ) :
    gainAt closes j - lossAt closes j = |diffAt closes j| := by
  unfold gainAt lossAt
  rcases le_total 0 (diffAt closes j) with h | h
  · rw [max_eq_left h, min_eq_right h, sub_zero, abs_of_nonneg h]
  · rw [max_eq_right h, min_eq_left h, zero_sub, abs_of_nonpos h]

/-- The RSI denominator `positive_avg + |negative_avg|` is the weighted
mean of the absolute price moves. -/
theorem rsiDenom_eq (closes : List ℚ) (t : ℕ) (ht : 1 ≤ t) :
    rmaAt (gainAt closes) t + |rmaAt (lossAt closes) t| =
      rmaNum (fun j => |diffAt closes j|) t / rmaNum (fun _ => 1) t := by
  have hW := rmaNum_one_pos t ht
  unfold rmaAt
  rw [abs_div, abs_of_pos hW,
    abs_of_nonpos (rmaNum_nonpos (lossAt closes) t (fun j => min_le_right _ _)),
    div_add_div_same, ← sub_eq_add_neg]
  congr 1
  unfold rmaNum
  rw [← Finset.sum_sub_distrib]
  apply Finset.sum_congr rfl
  intro k _
  rw [← mul_sub, gain_sub_loss]

/-- If some price change up to row `t` is non-zero, the RSI denominator
is positive (no 0/0). -/
theorem rsiDenom_pos (closes : List ℚ) (t : ℕ) (ht : 1 ≤ t)
    (hch : ∃ j, 1 ≤ j ∧ j ≤ t ∧ diffAt closes j ≠ 0) :
    0 < rmaAt (gainAt closes) t + |rmaAt (lossAt closes) t| := by
  rw [rsiDenom_eq closes t ht]
  apply div_pos _ (rmaNum_one_pos t ht)
  obtain ⟨j, hj1, hjt, hjne⟩ := hch
  unfold rmaNum
  apply Finset.sum_pos'
  · intro k _
    exact mul_nonneg (by unfold rmaWeight; positivity) (abs_nonneg _)
  · refine ⟨j - 1, Finset.mem_range.mpr (by omega), ?_⟩
    have hj : j - 1 + 1 = j := by omega
    rw [hj]
    exact mul_pos (by unfold rmaWeight; positivity) (abs_pos.mpr hjne)

theorem rsiAt_isSome (closes : List ℚ) (t : ℕ) (ht : 14 ≤ t)
    (hch : ∃ j, 1 ≤ j ∧ j ≤ t ∧ diffAt closes j ≠ 0) :
    (rsiAt closes t).isSome = true := by
  have hpos := rsiDenom_pos closes t (by omega) hch
  unfold rsiAt
  rw [if_pos ht]
  simp only [if_neg hpos.ne', Option.isSome_some]

/-- A filter whose predicate is false exactly on the first `k`
positions is a `drop k`. -/
theorem filter_eq_drop_of_boundary {α : Type} (p : α → Bool) :
    ∀ (k : ℕ) (l : List α),
      (∀ i (h : i < l.length), i < k → p (l.get ⟨i, h⟩) = false) →
      (∀ i (h : i < l.length), k ≤ i → p (l.get ⟨i, h⟩) = true) →
      l.filter p = l.drop k := by
  intro k
  induction k with
  | zero =>
    intro l _ h2
    rw [List.drop_zero]
    apply List.filter_eq_self.mpr
    intro a ha
    obtain ⟨n, hn, hna⟩ := List.mem_iff_getElem.mp ha
    rw [← hna]
    exact h2 n hn (by omega)
  | succ k ih =>
    intro l h1 h2
    cases l with
    | nil => rfl
    | cons a t =>
      have ha : p a = false := h1 0 (by simp) (by omega)
      rw [List.drop_succ_cons, List.filter_cons_of_neg (by simp [ha])]
      apply ih t
      · intro i hi hik
        exact h1 (i + 1) (by simpa using hi) (by omega)
      · intro i hi hik
        exact h2 (i + 1) (by simpa using hi) (by omega)

theorem featureTable_length (df : List DataRow) :
    (featureTable df).length = df.length := by
  simp [featureTable]

theorem featureTable_get (df : List DataRow) (i : ℕ)
    (h : i < (featureTable df).length) :
    (featureTable df).get ⟨i, h⟩ = featureRowAt df i := by
  simp [featureTable, List.get_eq_getElem, List.getElem_map, List.getElem_range]

/-- C8 (amended): provided at least one price change occurs among the
first 50 rows, preprocessing drops exactly the first
max(window sizes) − 1 = 49 rows — the returned table is the feature
table minus its first 49 rows, its row count is the input count minus
49, and every returned row has all three indicators defined.  (Without
that proviso the claim fails: on an all-flat prefix RSI_14 is NaN past
the warm-up too — see the counterexample.) -/
theorem C8_warmup_rows_dropped (df : List DataRow)
    (hch : ∃ j, 1 ≤ j ∧ j ≤ 49 ∧ diffAt (df.map (fun s => s.close)) j ≠ 0) :
    (preprocess_data df).2 = (featureTable df).drop 49 ∧
    ((preprocess_data df).2).length = df.length - 49 ∧
    (∀ r ∈ (preprocess_data df).2,
      r.sma_20.isSome ∧ r.sma_50.isSome ∧ r.rsi_14.isSome) := by
  have hfilter : (featureTable df).filter
      (fun r => r.sma_20.isSome && r.sma_50.isSome && r.rsi_14.isSome) =
      (featureTable df).drop 49 := by
    apply filter_eq_drop_of_boundary
    · intro i h hik
      rw [featureTable_get df i h]
      have h50 : smaAt 50 (df.map (fun s => s.close)) i = none := by
        unfold smaAt
        rw [if_neg (by omega)]
      simp [featureRowAt, h50]
    · intro i h hik
      rw [featureTable_get df i h]
      have h20 : 20 ≤ i + 1 := by omega
      have h50 : 50 ≤ i + 1 := by omega
      have hrsi : (rsiAt (df.map (fun s => s.close)) i).isSome = true := by
        apply rsiAt_isSome _ _ (by omega)
        obtain ⟨j, hj1, hj49, hjne⟩ := hch
        exact ⟨j, hj1, by omega, hjne⟩
      simp [featureRowAt, smaAt, h20, h50, hrsi]
  cases df with
  | nil =>
    refine ⟨by simp [preprocess_data, featureTable], by simp [preprocess_data], ?_⟩
    intro r hr
    simp [preprocess_data] at hr
  | cons a t =>
    have hpre : (preprocess_data (a :: t)).2 =
        (featureTable (a :: t)).filter
          (fun r => r.sma_20.isSome && r.sma_50.isSome && r.rsi_14.isSome) := by
      simp [preprocess_data]
    refine ⟨by rw [hpre, hfilter], ?_, ?_⟩
    · rw [hpre, hfilter, List.length_drop, featureTable_length]
    · intro r hr
      rw [hpre, List.mem_filter] at hr
      obtain ⟨_, hp⟩ := hr
      simp only [Bool.and_eq_true] at hp
      exact ⟨hp.1.1, hp.1.2, hp.2⟩

/-- C8 (amended) witness: a 50-row series with a single price change on
day 1; preprocessing keeps exactly the feature table minus the first 49
rows. -/
theorem C8_warmup_rows_dropped_witness :
    (preprocess_data (⟨0, 100, 1, 1, none, none, none⟩ ::
        List.replicate 49 (⟨0, 101, 1, 1, none, none, none⟩ : DataRow))).2
      = (featureTable (⟨0, 100, 1, 1, none, none, none⟩ ::
        List.replicate 49 (⟨0, 101, 1, 1, none, none, none⟩ : DataRow))).drop 49 := by
  have hch : ∃ j, 1 ≤ j ∧ j ≤ 49 ∧
      diffAt ((⟨0, 100, 1, 1, none, none, none⟩ ::
        List.replicate 49 (⟨0, 101, 1, 1, none, none, none⟩ : DataRow)).map
        (fun s => s.close)) j ≠ 0 := by
    refine ⟨1, le_refl 1, by norm_num, ?_⟩
    have h : diffAt ((⟨0, 100, 1, 1, none, none, none⟩ ::
        List.replicate 49 (⟨0, 101, 1, 1, none, none, none⟩ : DataRow)).map
        (fun s => s.close)) 1 = 1 := by
      with_unfolding_all rfl
    rw [h]
    norm_num
  exact (C8_warmup_rows_dropped _ hch).1

/-- The mutation of `preprocess_data` leaves every non-indicator column
of the caller's table unchanged. -/
theorem addIndicators_proj (df : List DataRow) :
    (addIndicators df).map
        (fun r => (r.ds, r.close, r.usd_index, r.treasury_yield)) =
      df.map (fun r => (r.ds, r.close, r.usd_index, r.treasury_yield)) := by
  unfold addIndicators
  rw [List.map_map]
  apply List.ext_getElem
  · simp
  · intro i h1 h2
    have hi : i < df.length := by simpa using h2
    simp [List.getElem_map, List.getElem_range, List.getD_eq_getElem?_getD,
      List.getElem?_eq_getElem hi]

/-- C9 (amended): preprocessing is a function of the input table alone,
but it does NOT leave the caller's table unchanged: it writes the three
indicator columns into it — the dates, closes and regressor columns of
every row are untouched, and after a non-empty call every row of the
caller's table carries the three (possibly NaN) indicator columns. -/
theorem C9_preprocess_mutation_frame (df : List DataRow) :
    ((preprocess_data df).1).map
        (fun r => (r.ds, r.close, r.usd_index, r.treasury_yield)) =
      df.map (fun r => (r.ds, r.close, r.usd_index, r.treasury_yield)) ∧
    (df ≠ [] → ∀ r ∈ (preprocess_data df).1,
      r.sma_20.isSome ∧ r.sma_50.isSome ∧ r.rsi_14.isSome) := by
  cases df with
  | nil => exact ⟨rfl, fun h => absurd rfl h⟩
  | cons a t =>
    have hpre : (preprocess_data (a :: t)).1 = addIndicators (a :: t) := by
      simp [preprocess_data]
    constructor
    · rw [hpre, addIndicators_proj]
    · intro _ r hr
      rw [hpre] at hr
      unfold addIndicators at hr
      obtain ⟨i, _, rfl⟩ := List.mem_map.mp hr
      simp

/-- C9 (amended) witness: the one-row call keeps the data columns
verbatim and adds the three indicator columns. -/
theorem C9_preprocess_mutation_frame_witness :
    ((preprocess_data [⟨0, 100, 1, 1, none, none, none⟩]).1).map
        (fun r => (r.ds, r.close, r.usd_index, r.treasury_yield)) =
      ([⟨0, 100, 1, 1, none, none, none⟩] : List DataRow).map
        (fun r => (r.ds, r.close, r.usd_index, r.treasury_yield)) ∧
    ((preprocess_data [⟨0, 100, 1, 1, none, none, none⟩]).1).map
        (fun r => (r.sma_20.isSome, r.sma_50.isSome, r.rsi_14.isSome)) =
      [(true, true, true)] :=
  ⟨(C9_preprocess_mutation_frame [⟨0, 100, 1, 1, none, none, none⟩]).1,
    by with_unfolding_all rfl⟩

end GoldForecast
